import Mathlib

/-!
# Verification of the mcumgr-client transfer protocol engine

Shallow embedding of the transfer protocol engine of `src/transfer.rs` and
`src/image.rs` (frame encoding, CRC16/XMODEM checksum, base64 line-chunked
transport framing, response decoding, and the chunked resumable upload
algorithm), together with theorems settling the specification claims.

Bytes are modelled as `Nat` values (with range hypotheses `< 256` where the
Rust type system guarantees `u8`); machine-integer overflow is modelled with
explicit `% 2 ^ w`.
-/

namespace McumgrClient

/-! ## Byte-level utilities -/

/-- Big-endian 2-byte serialization of a 16-bit value, as produced by
`write_u16::<BigEndian>` (the value is already reduced mod 2^16 by the Rust
`u16` type; we reduce here explicitly). -/
def u16be (x : Nat) : List Nat := [x / 256 % 256, x % 256]

/-- Big-endian 16-bit read from the first two bytes of a buffer, as done by
`BigEndian::read_u16`. -/
def readU16 (bs : List Nat) : Nat := bs.getD 0 0 * 256 + bs.getD 1 0

theorem readU16_u16be_append (x : Nat) (hx : x < 65536) (rest : List Nat) :
    readU16 (u16be x ++ rest) = x := by
  simp only [u16be, readU16, List.cons_append, List.getD]
  simp only [List.get?_cons_zero, List.get?_cons_succ, Option.getD_some]
  omega

theorem u16be_lt (x : Nat) : ∀ b ∈ u16be x, b < 256 := by
  intro b hb
  simp only [u16be, List.mem_cons, List.mem_singleton, List.not_mem_nil] at hb
  rcases hb with h | h | h <;> first | (subst h; omega) | exact absurd h (by simp)

/-- Wrapping subtraction on `usize` (64-bit), as Rust release builds compute
`a - b` (two's-complement wraparound on underflow). -/
def rustSub64 (a b : Nat) : Nat := (2 ^ 64 + a % 2 ^ 64 - b % 2 ^ 64) % 2 ^ 64

theorem rustSub64_of_le (a b : Nat) (hb : b ≤ a) (ha : a < 2 ^ 64) :
    rustSub64 a b = a - b := by
  have hb' : b < 2 ^ 64 := lt_of_le_of_lt hb ha
  simp only [rustSub64, Nat.mod_eq_of_lt ha, Nat.mod_eq_of_lt hb']
  omega

/-! ## CRC16 with the XMODEM parameters

Translated from the `crc16` crate's `State::<XMODEM>::calculate`: polynomial
0x1021, initial value 0, no reflection, no final xor. -/

/-- One shift step of the CRC16/XMODEM bitwise computation. -/
def crcShift (c : Nat) : Nat :=
  if c / 2 ^ 15 % 2 = 1 then (Nat.xor (c * 2) 0x1021) % 2 ^ 16 else c * 2 % 2 ^ 16

/-- Fold one input byte into the CRC16/XMODEM state. -/
def crcByte (c b : Nat) : Nat :=
  crcShift (crcShift (crcShift (crcShift (crcShift (crcShift (crcShift (crcShift
    (Nat.xor c (b % 256 * 256) % 2 ^ 16))))))))

/-- CRC16/XMODEM of a byte buffer (`State::<XMODEM>::calculate`). -/
def crc16 (bs : List Nat) : Nat := bs.foldl crcByte 0

theorem crcShift_lt (c : Nat) : crcShift c < 2 ^ 16 := by
  unfold crcShift
  split <;> exact Nat.mod_lt _ (by norm_num)

theorem crcByte_lt (c b : Nat) : crcByte c b < 2 ^ 16 := crcShift_lt _

theorem crc16_lt (bs : List Nat) : crc16 bs < 2 ^ 16 := by
  unfold crc16
  induction bs using List.reverseRecOn with
  | nil => norm_num
  | append_singleton xs x _ => rw [List.foldl_append, List.foldl_cons, List.foldl_nil]
                               exact crcByte_lt _ _

/-! ## Base64 (standard alphabet, with padding)

Model of the `base64` crate's `general_purpose::STANDARD` engine: encoding
3-byte groups into 4 alphabet characters with `=` padding, decoding the
inverse and rejecting non-canonical padding bits. -/

/-- ASCII codes of the standard base64 alphabet, in value order. -/
def b64Alphabet : List Nat :=
  [65, 66, 67, 68, 69, 70, 71, 72, 73, 74, 75, 76, 77, 78, 79, 80, 81, 82,
   83, 84, 85, 86, 87, 88, 89, 90,
   97, 98, 99, 100, 101, 102, 103, 104, 105, 106, 107, 108, 109, 110, 111,
   112, 113, 114, 115, 116, 117, 118, 119, 120, 121, 122,
   48, 49, 50, 51, 52, 53, 54, 55, 56, 57, 43, 47]

/-- ASCII character for a 6-bit value. -/
def b64Char (v : Nat) : Nat := b64Alphabet.getD v 0

/-- 6-bit value of an ASCII character, `none` if not in the alphabet. -/
def b64Val (c : Nat) : Option Nat := b64Alphabet.indexOf? c

theorem b64Val_b64Char : ∀ v < 64, b64Val (b64Char v) = some v := by decide

theorem b64Char_ne_pad : ∀ v < 64, b64Char v ≠ 61 := by decide

theorem b64Char_ne_newline : ∀ v < 64, b64Char v ≠ 10 := by decide

/-- Base64-encode a byte buffer into the list of ASCII codes of its standard,
padded base64 text. -/
def b64encode : List Nat → List Nat
  | [] => []
  | [a] => [b64Char (a / 4), b64Char (a % 4 * 16), 61, 61]
  | [a, b] => [b64Char (a / 4), b64Char (a % 4 * 16 + b / 16), b64Char (b % 16 * 4), 61]
  | a :: b :: c :: rest =>
      b64Char (a / 4) :: b64Char (a % 4 * 16 + b / 16) ::
      b64Char (b % 16 * 4 + c / 64) :: b64Char (c % 64) :: b64encode rest

/-- Base64-decode a list of ASCII codes; `none` on any malformed input
(bad length, character outside the alphabet, misplaced padding, or
non-canonical trailing bits). -/
def b64decode : List Nat → Option (List Nat)
  | [] => some []
  | w :: x :: y :: z :: rest =>
      if rest.isEmpty then
        if z = 61 then
          if y = 61 then
            match b64Val w, b64Val x with
            | some a, some b => if b % 16 = 0 then some [a * 4 + b / 16] else none
            | _, _ => none
          else
            match b64Val w, b64Val x, b64Val y with
            | some a, some b, some c =>
                if c % 4 = 0 then some [a * 4 + b / 16, b % 16 * 16 + c / 4] else none
            | _, _, _ => none
        else
          match b64Val w, b64Val x, b64Val y, b64Val z with
          | some a, some b, some c, some d =>
              some [a * 4 + b / 16, b % 16 * 16 + c / 4, c % 4 * 64 + d]
          | _, _, _, _ => none
      else
        match b64Val w, b64Val x, b64Val y, b64Val z with
        | some a, some b, some c, some d =>
            (b64decode rest).map
              (fun tl => (a * 4 + b / 16) :: (b % 16 * 16 + c / 4) :: (c % 4 * 64 + d) :: tl)
        | _, _, _, _ => none
  | _ => none

theorem b64encode_ne_nil : ∀ bs : List Nat, bs ≠ [] → b64encode bs ≠ []
  | [], h => absurd rfl h
  | [_], _ => by simp [b64encode]
  | [_, _], _ => by simp [b64encode]
  | _ :: _ :: _ :: _, _ => by simp [b64encode]

theorem b64Char_ne_newline' (v : Nat) : b64Char v ≠ 10 := by
  by_cases hv : v < 64
  · exact b64Char_ne_newline v hv
  · unfold b64Char
    rw [List.getD_eq_default _ _ (by simp [b64Alphabet]; omega)]
    omega

theorem b64encode_mem_ne_newline : ∀ bs : List Nat, ∀ c ∈ b64encode bs, c ≠ 10
  | [], c, hc => by simp [b64encode] at hc
  | [a], c, hc => by
      simp only [b64encode, List.mem_cons, List.not_mem_nil, or_false] at hc
      rcases hc with h | h | h | h <;> subst h <;>
        first | exact b64Char_ne_newline' _ | omega
  | [a, b], c, hc => by
      simp only [b64encode, List.mem_cons, List.not_mem_nil, or_false] at hc
      rcases hc with h | h | h | h <;> subst h <;>
        first | exact b64Char_ne_newline' _ | omega
  | a :: b :: d :: rest, c, hc => by
      simp only [b64encode, List.mem_cons] at hc
      rcases hc with h | h | h | h | h
      · subst h; exact b64Char_ne_newline' _
      · subst h; exact b64Char_ne_newline' _
      · subst h; exact b64Char_ne_newline' _
      · subst h; exact b64Char_ne_newline' _
      · exact b64encode_mem_ne_newline rest c h

/-- Base64 decoding is a left inverse of base64 encoding on byte buffers. -/
theorem b64decode_b64encode : ∀ bs : List Nat, (∀ b ∈ bs, b < 256) →
    b64decode (b64encode bs) = some bs
  | [], _ => rfl
  | [a], h => by
      have ha : a < 256 := h a (by simp)
      have h1 : a / 4 < 64 := by omega
      have h2 : a % 4 * 16 < 64 := by omega
      simp only [b64encode, b64decode, List.isEmpty_nil, if_true, if_pos rfl,
        b64Val_b64Char _ h1, b64Val_b64Char _ h2]
      rw [if_pos (by omega)]
      congr 1
      congr 1
      omega
  | [a, b], h => by
      have ha : a < 256 := h a (by simp)
      have hb : b < 256 := h b (by simp)
      have h1 : a / 4 < 64 := by omega
      have h2 : a % 4 * 16 + b / 16 < 64 := by omega
      have h3 : b % 16 * 4 < 64 := by omega
      simp only [b64encode, b64decode, List.isEmpty_nil, if_true, if_pos rfl,
        if_neg (b64Char_ne_pad _ h3), b64Val_b64Char _ h1, b64Val_b64Char _ h2,
        b64Val_b64Char _ h3]
      rw [if_pos (by omega)]
      congr 1
      congr 1
      · omega
      · congr 1
        omega
  | a :: b :: d :: rest, h => by
      have ha : a < 256 := h a (by simp)
      have hb : b < 256 := h b (by simp)
      have hd : d < 256 := h d (by simp)
      have h1 : a / 4 < 64 := by omega
      have h2 : a % 4 * 16 + b / 16 < 64 := by omega
      have h3 : b % 16 * 4 + d / 64 < 64 := by omega
      have h4 : d % 64 < 64 := by omega
      rcases List.eq_nil_or_concat rest with hrest | ⟨_, _, hne⟩
      · subst hrest
        simp only [b64encode, b64decode, List.isEmpty_nil, if_true,
          if_neg (b64Char_ne_pad _ h4), if_neg (b64Char_ne_pad _ h3),
          b64Val_b64Char _ h1, b64Val_b64Char _ h2, b64Val_b64Char _ h3,
          b64Val_b64Char _ h4]
        congr 1
        congr 1
        · omega
        · congr 1
          · omega
          · congr 1
            omega
      · have hrest : rest ≠ [] := by subst hne; simp
        have henil := b64encode_ne_nil rest hrest
        have hemp : (b64encode rest).isEmpty = false := by
          rw [List.isEmpty_eq_false]
          exact henil
        have ih := b64decode_b64encode rest (fun x hx => h x (by simp [hx]))
        have e1 : a / 4 * 4 + (a % 4 * 16 + b / 16) / 16 = a := by omega
        have e2 : (a % 4 * 16 + b / 16) % 16 * 16 + (b % 16 * 4 + d / 64) / 4 = b := by omega
        have e3 : (b % 16 * 4 + d / 64) % 4 * 64 + d % 64 = d := by omega
        simp only [b64encode, b64decode, hemp, if_false,
          b64Val_b64Char _ h1, b64Val_b64Char _ h2, b64Val_b64Char _ h3,
          b64Val_b64Char _ h4, ih, Option.map_some, e1, e2, e3]
        simp

/-! ## Protocol header

Modelled from the spec: `nmp_hdr.rs` is not part of the provided sources; the
spec fixes the header as an 8-byte structure with big-endian multi-byte
fields, layout `op(1) | flags(1) | length(2) | group(2) | sequence(1) |
command-id(1)`. Field values are carried as `Nat` (the enumerations `op`,
`group` and `command-id` are identified with their single- resp. two-byte
wire values). -/
structure NmpHdr where
  op : Nat
  flags : Nat
  len : Nat
  group : Nat
  seq : Nat
  id : Nat
  deriving DecidableEq, Repr

/-- Modelled from the spec: serialization of the 8-byte header, big-endian
multi-byte fields (`NmpHdr::serialize` of the missing `nmp_hdr.rs`). -/
def serializeHdr (h : NmpHdr) : List Nat :=
  h.op % 256 :: h.flags % 256 :: (u16be h.len ++ u16be h.group ++ [h.seq % 256, h.id % 256])

/-- Modelled from the spec: deserialization of the 8-byte header from the
first 8 bytes of a buffer (`NmpHdr::deserialize` of the missing
`nmp_hdr.rs`). -/
def deserializeHdr (bs : List Nat) : NmpHdr :=
  { op := bs.getD 0 0, flags := bs.getD 1 0, len := readU16 (bs.drop 2),
    group := readU16 (bs.drop 4), seq := bs.getD 6 0, id := bs.getD 7 0 }

/-- Modelled from the spec: the configuration record produced by the
command-line collaborator (`cli.rs` is not part of the provided sources);
only the options the transfer engine reads are carried. -/
structure Cli where
  mtu : Nat
  linelength : Nat
  slot : Nat
  deriving DecidableEq, Repr

/-! ## Frame Codec — encode (`encode_request`, src/transfer.rs lines 49-103) -/

/-- Fueled model of the line-chunking while loop of `encode_request`
(src/transfer.rs lines 85-100): emit the remaining base64 text in lines of
`min L remaining` content bytes, the first line prefixed with `[6, 9]`,
later lines with `[4, 20]`, each terminated by `0x0A`.  With `L ≥ 1`, fuel
`bs.length + 1` always suffices. -/
def chunkLinesF : Nat → Nat → Bool → List Nat → List Nat
  | 0, _, _, _ => []
  | fuel + 1, L, first, bs =>
      if bs.isEmpty then []
      else
        (if first then [6, 9] else [4, 20]) ++ bs.take L ++ [10] ++
          chunkLinesF fuel L false (bs.drop L)

/-- Translation of `encode_request` (src/transfer.rs lines 49-103): build the
header with `len = body.len() as u16`, serialize and append the body, append
the big-endian CRC16/XMODEM, prepend the big-endian total length
(`as u16`), base64-encode, and emit marker-prefixed lines of at most
`cli.linelength - 4` content bytes. -/
def encode_request (cli : Cli) (op group id : Nat) (body : List Nat) (seq_id : Nat) :
    List Nat × NmpHdr :=
  let request_header : NmpHdr :=
    { op := op, flags := 0, len := body.length % 65536, group := group,
      seq := seq_id, id := id }
  let serialized := serializeHdr request_header ++ body
  let withChecksum := serialized ++ u16be (crc16 serialized)
  let base64_data := b64encode (u16be (withChecksum.length % 65536) ++ withChecksum)
  (chunkLinesF (base64_data.length + 1) (rustSub64 cli.linelength 4) true base64_data,
   request_header)

/-! ## Transport decode half (`transceive`, src/transfer.rs lines 122-169) -/

/-- One step of the transport's line reader (src/transfer.rs lines 129-137):
accumulate bytes up to the next `0x0A`, returning the content and the rest
of the stream; `none` if the stream ends first. -/
def takeLine : List Nat → Option (List Nat × List Nat)
  | [] => none
  | b :: rest =>
      if b = 10 then some ([], rest)
      else (takeLine rest).map (fun p => (b :: p.1, p.2))

/-- Fueled reader stripping the transport framing from a whole wire buffer:
expect the 2-byte start marker (`[6, 9]` on the first line, `[4, 20]` on
continuation lines, src/transfer.rs lines 88-94 and 124-126), take the line
content up to the newline, and concatenate the content of all lines.  This
is the "markers and newlines stripped" half that feeds `frameDecode`. -/
def stripLinesF : Nat → Bool → List Nat → Option (List Nat)
  | 0, _, _ => none
  | fuel + 1, first, bs =>
      match bs with
      | [] => some []
      | _ :: _ =>
          if bs.take 2 = (if first then [6, 9] else [4, 20]) then
            match takeLine (bs.drop 2) with
            | none => none
            | some (content, rest) =>
                (stripLinesF fuel false rest).map (fun tl => content ++ tl)
          else none

/-- Strip the line framing of a complete encoded frame. -/
def stripAllLines (wire : List Nat) : Option (List Nat) :=
  stripLinesF (wire.length + 1) true wire

theorem takeLine_append (content rest : List Nat) (h : ∀ c ∈ content, c ≠ 10) :
    takeLine (content ++ 10 :: rest) = some (content, rest) := by
  induction content with
  | nil => simp [takeLine]
  | cons b tl ih =>
      have hb : b ≠ 10 := h b (by simp)
      have ih' := ih (fun c hc => h c (by simp [hc]))
      simp [takeLine, if_neg hb, ih']

/-- Stripping the transport framing undoes the line chunking, for any line
content width `L ≥ 1` and newline-free content. -/
theorem stripLinesF_chunkLinesF (L : Nat) (hL : 1 ≤ L) :
    ∀ f1 : Nat, ∀ bs : List Nat, ∀ first : Bool, ∀ f2 : Nat,
      bs.length < f1 → bs.length < f2 → (∀ c ∈ bs, c ≠ 10) →
      stripLinesF f2 first (chunkLinesF f1 L first bs) = some bs := by
  intro f1
  induction f1 with
  | zero => intro bs first f2 h1; omega
  | succ k ih =>
      intro bs first f2 h1 h2 hnl
      match f2, h2 with
      | m + 1, h2 =>
        cases bs with
        | nil => simp [chunkLinesF, stripLinesF]
        | cons b tl =>
            have hne : ¬ ((b :: tl : List Nat).isEmpty = true) := by simp
            have htake : ∀ c ∈ (b :: tl).take L, c ≠ 10 :=
              fun c hc => hnl c (List.mem_of_mem_take hc)
            have hlen : ((b :: tl).drop L).length < k := by
              simp only [List.length_drop, List.length_cons] at h1 ⊢
              omega
            have hlen2 : ((b :: tl).drop L).length < m := by
              simp only [List.length_drop, List.length_cons] at h2 ⊢
              omega
            have hrec := ih ((b :: tl).drop L) false m hlen hlen2
              (fun c hc => hnl c (List.mem_of_mem_drop hc))
            have htl := takeLine_append ((b :: tl).take L)
              (chunkLinesF k L false ((b :: tl).drop L)) htake
            rw [chunkLinesF, if_neg hne]
            cases first <;>
              simp [stripLinesF, htl, hrec, List.take_append_drop]

/-- Translation of the frame verification and decoding of `transceive`
(src/transfer.rs lines 141-169), applied to the base64-decoded buffer:
read the 2-byte big-endian length prefix and require it to equal the
remaining length minus 2, split off the trailing 2-byte checksum and require
it to equal the CRC16/XMODEM of the bytes in between, then deserialize the
8-byte header; the payload is the rest.  Rust panics (out-of-range slice
indexing, `unwrap` on a failed header read) are modelled as `panic:`
errors. -/
def frameDecode (decoded : List Nat) : Except String (NmpHdr × List Nat) :=
  if decoded.length < 2 then Except.error "panic: buffer too short for length prefix"
  else
    let len := readU16 decoded
    if len ≠ decoded.length - 2 then Except.error "wrong chunk length"
    else if decoded.length < 4 then Except.error "panic: checksum slice out of range"
    else
      let data := (decoded.drop 2).take (decoded.length - 4)
      let read_checksum := readU16 (decoded.drop (decoded.length - 2))
      if read_checksum ≠ crc16 data then Except.error "wrong checksum"
      else if data.length < 8 then Except.error "panic: header deserialize failed"
      else Except.ok (deserializeHdr data, data.drop 8)

/-- Decode half of the transport: strip line markers and newlines
(src/transfer.rs lines 124-137), base64-decode (line 143), then verify and
decode the frame (lines 145-169). -/
def transportDecode (wire : List Nat) : Except String (NmpHdr × List Nat) :=
  match stripAllLines wire with
  | none => Except.error "read error"
  | some content =>
      match b64decode content with
      | none => Except.error "base64 decode error"
      | some decoded => frameDecode decoded

theorem serializeHdr_length (h : NmpHdr) : (serializeHdr h).length = 8 := by
  simp [serializeHdr, u16be]

theorem u16be_length (x : Nat) : (u16be x).length = 2 := by simp [u16be]

theorem serializeHdr_lt (hd : NmpHdr) : ∀ b ∈ serializeHdr hd, b < 256 := by
  intro b hb
  simp only [serializeHdr, u16be, List.mem_cons, List.mem_append,
    List.mem_singleton, List.not_mem_nil, or_false] at hb
  omega

theorem deserializeHdr_serializeHdr_append (h : NmpHdr) (rest : List Nat) :
    deserializeHdr (serializeHdr h ++ rest) =
      { op := h.op % 256, flags := h.flags % 256, len := h.len % 65536,
        group := h.group % 65536, seq := h.seq % 256, id := h.id % 256 } := by
  have e1 : h.len / 256 % 256 * 256 + h.len % 256 = h.len % 65536 := by omega
  have e2 : h.group / 256 % 256 * 256 + h.group % 256 = h.group % 65536 := by omega
  simp [deserializeHdr, serializeHdr, u16be, readU16, List.getD, e1, e2]

theorem length_le_chunkLinesF (L : Nat) (hL : 1 ≤ L) :
    ∀ f : Nat, ∀ bs : List Nat, ∀ first : Bool,
      bs.length < f → bs.length ≤ (chunkLinesF f L first bs).length := by
  intro f
  induction f with
  | zero => intro bs first h1; omega
  | succ k ih =>
      intro bs first h1
      cases bs with
      | nil => simp
      | cons b tl =>
          have hne : ¬ ((b :: tl : List Nat).isEmpty = true) := by simp
          rw [chunkLinesF, if_neg hne]
          have hlen : ((b :: tl).drop L).length < k := by
            simp only [List.length_drop, List.length_cons] at h1 ⊢
            omega
          have := ih ((b :: tl).drop L) false hlen
          simp only [List.length_append, List.length_take, List.length_drop,
            List.length_cons] at this ⊢
          cases first <;> simp <;> omega

/-- C1. Frame round-trip: encoding a request and feeding the wire bytes back
through the transport's decode half (markers and newlines stripped)
reproduces the original header fields and the original payload exactly, for
every payload byte buffer that fits a frame (`body.length + 10 ≤ 65535`) and
every valid header field assignment (byte-sized `op`, `seq`, `command id`,
two-byte `group`), with a usable line width (`linelength ≥ 5`). -/
theorem frame_roundtrip (cli : Cli) (op group id seq : Nat) (body : List Nat)
    (hll : 5 ≤ cli.linelength) (hll2 : cli.linelength < 2 ^ 64)
    (hbody : ∀ b ∈ body, b < 256) (hlen : body.length + 10 ≤ 65535)
    (hop : op < 256) (hgroup : group < 65536) (hid : id < 256) (hseq : seq < 256) :
    transportDecode (encode_request cli op group id body seq).1 =
      Except.ok ((encode_request cli op group id body seq).2, body) ∧
    (encode_request cli op group id body seq).2 =
      { op := op, flags := 0, len := body.length, group := group, seq := seq, id := id } := by
  have hL : rustSub64 cli.linelength 4 = cli.linelength - 4 :=
    rustSub64_of_le _ _ (by omega) hll2
  have hL1 : 1 ≤ rustSub64 cli.linelength 4 := by omega
  set hdr : NmpHdr :=
    { op := op, flags := 0, len := body.length % 65536, group := group,
      seq := seq, id := id } with hdr_def
  set serialized := serializeHdr hdr ++ body with serialized_def
  set withChecksum := serialized ++ u16be (crc16 serialized) with withChecksum_def
  set framed := u16be (withChecksum.length % 65536) ++ withChecksum with framed_def
  have hslen : serialized.length = 8 + body.length := by
    simp [serialized_def, serializeHdr_length]
  have hwlen : withChecksum.length = 10 + body.length := by
    simp [withChecksum_def, hslen, u16be]
    omega
  have hflen : framed.length = 12 + body.length := by
    simp [framed_def, hwlen, u16be]
    omega
  have hframed_lt : ∀ b ∈ framed, b < 256 := by
    intro b hb
    simp only [framed_def, withChecksum_def, serialized_def, List.mem_append] at hb
    rcases hb with h | (h | h) | h
    · exact u16be_lt _ b h
    · exact serializeHdr_lt _ b h
    · exact hbody b h
    · exact u16be_lt _ b h
  have henc : (encode_request cli op group id body seq).1 =
      chunkLinesF ((b64encode framed).length + 1) (rustSub64 cli.linelength 4) true
        (b64encode framed) := rfl
  have hstrip : stripAllLines (encode_request cli op group id body seq).1 =
      some (b64encode framed) := by
    rw [henc]
    exact stripLinesF_chunkLinesF _ hL1 _ _ _ _ (by omega)
      (by
        have := length_le_chunkLinesF _ hL1 ((b64encode framed).length + 1)
          (b64encode framed) true (by omega)
        omega)
      (b64encode_mem_ne_newline framed)
  have hdecode : b64decode (b64encode framed) = some framed :=
    b64decode_b64encode framed hframed_lt
  have hT : withChecksum.length % 65536 = 10 + body.length := by
    rw [hwlen]
    omega
  have hread : readU16 framed = 10 + body.length := by
    rw [framed_def, hT, readU16_u16be_append _ (by omega)]
  have hdropframed : framed.drop 2 = withChecksum := by
    rw [framed_def,
      show (2 : Nat) = (u16be (withChecksum.length % 65536)).length from
        (u16be_length _).symm,
      List.drop_left]
  have hdata : (framed.drop 2).take (framed.length - 4) = serialized := by
    rw [hdropframed]
    have hlen4 : framed.length - 4 = serialized.length := by
      rw [hflen, hslen]
      omega
    rw [hlen4, withChecksum_def, List.take_left]
  have hcksum : framed.drop (framed.length - 2) = u16be (crc16 serialized) := by
    have hsplit : framed.length - 2 = 2 + serialized.length := by
      rw [hflen, hslen]
      omega
    rw [hsplit, ← List.drop_drop, hdropframed, withChecksum_def,
      show serialized.length = serialized.length + 0 from by omega]
    rw [List.drop_append, List.drop_zero]
  have hreadck : readU16 (u16be (crc16 serialized)) = crc16 serialized := by
    have := readU16_u16be_append (crc16 serialized) (crc16_lt serialized) []
    simpa using this
  have htd : transportDecode (encode_request cli op group id body seq).1 =
      frameDecode framed := by
    unfold transportDecode
    rw [hstrip]
    simp only [hdecode]
  constructor
  · show transportDecode (encode_request cli op group id body seq).1 = _
    rw [htd, frameDecode]
    rw [if_neg (by rw [hflen]; omega)]
    simp only [hread]
    rw [if_neg (by rw [hflen]; omega), if_neg (by rw [hflen]; omega)]
    rw [hdata, hcksum, hreadck]
    rw [if_neg (by simp)]
    rw [if_neg (by rw [hslen]; omega)]
    rw [serialized_def, deserializeHdr_serializeHdr_append]
    rw [show (serializeHdr hdr ++ body).drop 8 = body by
      rw [show (8 : Nat) = (serializeHdr hdr).length from (serializeHdr_length hdr).symm,
        List.drop_left]]
    have hh : ({ op := hdr.op % 256, flags := hdr.flags % 256,
                 len := hdr.len % 65536, group := hdr.group % 65536,
                 seq := hdr.seq % 256, id := hdr.id % 256 } :
                NmpHdr) = hdr := by
      simp only [hdr_def, NmpHdr.mk.injEq, true_and, and_true]
      omega
    rw [hh]
    rfl
  · show hdr = _
    simp only [hdr_def, NmpHdr.mk.injEq, true_and, and_true]
    omega

/-! ## C2 — structure of the encoded frame -/

/-- Wire layout of a list of content lines as the spec states it: the first
line is prefixed with the start marker `{0x06, 0x09}`, every later line with
the continuation marker `{0x04, 0x14}`, and every line is terminated by a
`0x0A` byte. -/
def linesToWire : Bool → List (List Nat) → List Nat
  | _, [] => []
  | first, l :: ls => (if first then [6, 9] else [4, 20]) ++ l ++ [10] ++ linesToWire false ls

theorem chunkLinesF_eq_linesToWire (L : Nat) (hL : 1 ≤ L) :
    ∀ f : Nat, ∀ bs : List Nat, ∀ first : Bool, bs.length < f →
      ∃ lines : List (List Nat),
        chunkLinesF f L first bs = linesToWire first lines ∧
        lines.flatten = bs ∧ ∀ l ∈ lines, l.length ≤ L ∧ l ≠ [] := by
  intro f
  induction f with
  | zero => intro bs first h1; omega
  | succ k ih =>
      intro bs first h1
      cases bs with
      | nil => exact ⟨[], by simp [chunkLinesF, linesToWire], by simp, by simp⟩
      | cons b tl =>
          obtain ⟨lines, he, hj, hb⟩ := ih ((b :: tl).drop L) false
            (by simp only [List.length_drop, List.length_cons] at h1 ⊢; omega)
          refine ⟨(b :: tl).take L :: lines, ?_, ?_, ?_⟩
          · rw [chunkLinesF, if_neg (by simp), linesToWire, he]
          · simp [hj]
          · intro l hl
            rcases List.mem_cons.mp hl with h | h
            · subst h
              constructor
              · simp only [List.length_take, List.length_cons]
                omega
              · match L, hL with
                | Lp + 1, _ => simp
            · exact hb l h

theorem u16be_mod (x : Nat) : u16be (x % 65536) = u16be x := by
  simp only [u16be, List.cons.injEq, and_true]
  constructor
  · omega
  · omega

/-- C2. The frame encoder produces exactly: the 8-byte big-endian header with
its length field set to the payload byte count, followed by the payload,
followed by the big-endian CRC16/XMODEM of header+payload, all prefixed by a
2-byte big-endian total length covering header+payload+checksum, then
base64-encoded and split into lines of at most `linelength - 4` content
bytes, the first line prefixed with marker bytes `{0x06, 0x09}`, every later
line with `{0x04, 0x14}`, and every line terminated by a `0x0A` byte. -/
theorem encode_request_structure (cli : Cli) (op group id seq : Nat) (body : List Nat)
    (hll : 5 ≤ cli.linelength) (hll2 : cli.linelength < 2 ^ 64)
    (hlen : body.length + 10 ≤ 65535)
    (hop : op < 256) (hgroup : group < 65536) (hid : id < 256) (hseq : seq < 256) :
    ∃ lines : List (List Nat),
      (encode_request cli op group id body seq).1 = linesToWire true lines ∧
      lines.flatten = b64encode
        (u16be (8 + body.length + 2) ++
          ((op :: 0 :: (u16be body.length ++ u16be group ++ [seq, id])) ++ body ++
            u16be (crc16 ((op :: 0 :: (u16be body.length ++ u16be group ++ [seq, id])) ++
              body)))) ∧
      ∀ l ∈ lines, l.length ≤ cli.linelength - 4 ∧ l ≠ [] := by
  have hL : rustSub64 cli.linelength 4 = cli.linelength - 4 :=
    rustSub64_of_le _ _ (by omega) hll2
  have hL1 : 1 ≤ rustSub64 cli.linelength 4 := by omega
  set hdr : NmpHdr :=
    { op := op, flags := 0, len := body.length % 65536, group := group,
      seq := seq, id := id } with hdr_def
  have hser : serializeHdr hdr =
      op :: 0 :: (u16be body.length ++ u16be group ++ [seq, id]) := by
    simp only [serializeHdr, hdr_def]
    rw [u16be_mod]
    simp only [Nat.mod_eq_of_lt hop, Nat.zero_mod, Nat.mod_eq_of_lt hseq,
      Nat.mod_eq_of_lt hid]
  set serialized := serializeHdr hdr ++ body with serialized_def
  have hslen : serialized.length = 8 + body.length := by
    simp [serialized_def, serializeHdr_length]
  have hwlen : (serialized ++ u16be (crc16 serialized)).length % 65536 =
      8 + body.length + 2 := by
    simp only [List.length_append, hslen, u16be_length]
    omega
  have henc : (encode_request cli op group id body seq).1 =
      chunkLinesF
        ((b64encode (u16be ((serialized ++ u16be (crc16 serialized)).length % 65536) ++
          (serialized ++ u16be (crc16 serialized)))).length + 1)
        (rustSub64 cli.linelength 4) true
        (b64encode (u16be ((serialized ++ u16be (crc16 serialized)).length % 65536) ++
          (serialized ++ u16be (crc16 serialized)))) := rfl
  obtain ⟨lines, he, hj, hb⟩ := chunkLinesF_eq_linesToWire _ hL1
    ((b64encode (u16be ((serialized ++ u16be (crc16 serialized)).length % 65536) ++
      (serialized ++ u16be (crc16 serialized)))).length + 1)
    (b64encode (u16be ((serialized ++ u16be (crc16 serialized)).length % 65536) ++
      (serialized ++ u16be (crc16 serialized)))) true (by omega)
  refine ⟨lines, by rw [henc, he], ?_, by rw [← hL]; exact hb⟩
  rw [hj, hwlen, serialized_def, hser]

/-! ## C3 — length-prefix verification in the decode half -/

/-- C3. After base64 decoding, the transport reads the 2-byte big-endian
length prefix and fails with the length-mismatch error exactly when that
value differs from the remaining decoded length minus 2; when it matches
(and the buffer is long enough for the checksum split the code performs
next), the outcome is decided by the checksum comparison. -/
theorem frameDecode_length_check (dec : List Nat) (hlen : 2 ≤ dec.length) :
    ((frameDecode dec = Except.error "wrong chunk length") ↔
      readU16 dec ≠ dec.length - 2) ∧
    (readU16 dec = dec.length - 2 → 4 ≤ dec.length →
      ((frameDecode dec = Except.error "wrong checksum") ↔
        readU16 (dec.drop (dec.length - 2)) ≠
          crc16 ((dec.drop 2).take (dec.length - 4)))) := by
  simp only [frameDecode]
  rw [if_neg (show ¬ dec.length < 2 by omega)]
  by_cases hl : readU16 dec ≠ dec.length - 2
  · rw [if_pos hl]
    exact ⟨by simp [hl], fun h _ => absurd h hl⟩
  · push_neg at hl
    rw [if_neg (by omega)]
    by_cases h4 : dec.length < 4
    · rw [if_pos h4]
      refine ⟨?_, fun _ h4' => absurd h4' (by omega)⟩
      constructor
      · intro h
        exact absurd h (by simp)
      · intro h
        exact absurd hl h
    · rw [if_neg h4]
      by_cases hck : readU16 (dec.drop (dec.length - 2)) ≠
          crc16 ((dec.drop 2).take (dec.length - 4))
      · rw [if_pos hck]
        refine ⟨?_, fun _ _ => by simp [hck]⟩
        constructor
        · intro h
          exact absurd h (by simp)
        · intro h
          exact absurd hl h
      · rw [if_neg hck]
        push_neg at hck
        by_cases h8 : ((dec.drop 2).take (dec.length - 4)).length < 8
        · rw [if_pos h8]
          refine ⟨?_, fun _ _ => ?_⟩
          · constructor
            · intro h
              exact absurd h (by simp)
            · intro h
              exact absurd hl h
          · constructor
            · intro h
              exact absurd h (by simp)
            · intro h
              exact absurd hck h
        · rw [if_neg h8]
          refine ⟨?_, fun _ _ => ?_⟩
          · constructor
            · intro h
              exact absurd h (by simp)
            · intro h
              exact absurd hl h
          · constructor
            · intro h
              exact absurd h (by simp)
            · intro h
              exact absurd hck h

/-! ## SHA-256

Translation of the standard SHA-256 function (the `sha2` crate's
`Sha256::digest` used at src/image.rs line 80) on byte buffers, with 32-bit
words as `Nat` reduced mod `2 ^ 32`. -/

/-- Right-rotate a 32-bit word by `n`. -/
def rotr32 (x n : Nat) : Nat := (x / 2 ^ n + x % 2 ^ n * 2 ^ (32 - n)) % 2 ^ 32

/-- Xor of three words. -/
def xor3 (a b c : Nat) : Nat := Nat.xor (Nat.xor a b) c

/-- SHA-256 round constants. -/
def sha256K : List Nat :=
  [1116352408, 1899447441, 3049323471, 3921009573, 961987163,
   1508970993, 2453635748, 2870763221, 3624381080, 310598401,
   607225278, 1426881987, 1925078388, 2162078206, 2614888103,
   3248222580, 3835390401, 4022224774, 264347078, 604807628,
   770255983, 1249150122, 1555081692, 1996064986, 2554220882,
   2821834349, 2952996808, 3210313671, 3336571891, 3584528711,
   113926993, 338241895, 666307205, 773529912, 1294757372,
   1396182291, 1695183700, 1986661051, 2177026350, 2456956037,
   2730485921, 2820302411, 3259730800, 3345764771, 3516065817,
   3600352804, 4094571909, 275423344, 430227734, 506948616,
   659060556, 883997877, 958139571, 1322822218, 1537002063,
   1747873779, 1955562222, 2024104815, 2227730452, 2361852424,
   2428436474, 2756734187, 3204031479, 3329325298]

/-- SHA-256 initial hash state. -/
def sha256H0 : List Nat :=
  [1779033703, 3144134277, 1013904242, 2773480762,
   1359893119, 2600822924, 528734635, 1541459225]

/-- Big-endian 8-byte serialization of a 64-bit value. -/
def u64be (x : Nat) : List Nat :=
  [x / 2 ^ 56 % 256, x / 2 ^ 48 % 256, x / 2 ^ 40 % 256, x / 2 ^ 32 % 256,
   x / 2 ^ 24 % 256, x / 2 ^ 16 % 256, x / 2 ^ 8 % 256, x % 256]

/-- SHA-256 message padding: append `0x80`, zero bytes up to 56 mod 64, and
the 8-byte big-endian bit length. -/
def sha256Pad (msg : List Nat) : List Nat :=
  msg ++ [0x80] ++ List.replicate ((64 - (msg.length + 9) % 64) % 64) 0 ++
    u64be (msg.length * 8)

/-- Group bytes into big-endian 32-bit words. -/
def toWords32 : List Nat → List Nat
  | a :: b :: c :: d :: rest =>
      (a * 2 ^ 24 + b * 2 ^ 16 + c * 2 ^ 8 + d) :: toWords32 rest
  | _ => []

/-- Extend the 16-word message schedule by `n` further words. -/
def sha256Extend : Nat → List Nat → List Nat
  | 0, w => w
  | n + 1, w =>
      sha256Extend n (w ++
        [(xor3 (rotr32 (w.getD (w.length - 2) 0) 17) (rotr32 (w.getD (w.length - 2) 0) 19)
            (w.getD (w.length - 2) 0 / 2 ^ 10) +
          w.getD (w.length - 7) 0 +
          xor3 (rotr32 (w.getD (w.length - 15) 0) 7) (rotr32 (w.getD (w.length - 15) 0) 18)
            (w.getD (w.length - 15) 0 / 2 ^ 3) +
          w.getD (w.length - 16) 0) % 2 ^ 32])

/-- One SHA-256 compression round on the 8-word working state. -/
def sha256Round (st : List Nat) (k w : Nat) : List Nat :=
  match st with
  | [a, b, c, d, e, f, g, h] =>
      let s1 := xor3 (rotr32 e 6) (rotr32 e 11) (rotr32 e 25)
      let ch := Nat.xor (Nat.land e f) (Nat.land (Nat.xor e (2 ^ 32 - 1)) g)
      let t1 := (h + s1 + ch + k + w) % 2 ^ 32
      let s0 := xor3 (rotr32 a 2) (rotr32 a 13) (rotr32 a 22)
      let mj := Nat.xor (Nat.xor (Nat.land a b) (Nat.land a c)) (Nat.land b c)
      let t2 := (s0 + mj) % 2 ^ 32
      [(t1 + t2) % 2 ^ 32, a, b, c, (d + t1) % 2 ^ 32, e, f, g]
  | other => other

/-- Compress one 64-byte block into the hash state. -/
def sha256Block (h : List Nat) (block : List Nat) : List Nat :=
  let w := sha256Extend 48 (toWords32 block)
  let final := (sha256K.zip w).foldl (fun st kw => sha256Round st kw.1 kw.2) h
  List.zipWith (fun x y => (x + y) % 2 ^ 32) h final

/-- Fold all 64-byte blocks of a padded message into the hash state. -/
def sha256Chunks : Nat → List Nat → List Nat → List Nat
  | 0, h, _ => h
  | fuel + 1, h, msg =>
      if msg.isEmpty then h
      else sha256Chunks fuel (sha256Block h (msg.take 64)) (msg.drop 64)

/-- SHA-256 digest of a byte buffer, as 32 bytes. -/
def sha256 (msg : List Nat) : List Nat :=
  let padded := sha256Pad msg
  ((sha256Chunks (padded.length + 1) sha256H0 padded).map
    (fun w => [w / 2 ^ 24 % 256, w / 2 ^ 16 % 256, w / 2 ^ 8 % 256, w % 256])).flatten

/-! ## Image upload request construction (src/image.rs lines 67-93) -/

/-- Image-upload request record as built in `upload` (src/image.rs lines
75-93; its fields and optionality are visible in the struct literals
there).  `off` and `len` are `u32` values on the wire, hence reduced mod
`2 ^ 32` by the `as u32` casts. -/
structure ImageUploadReq where
  image_num : Nat
  off : Nat
  len : Option Nat
  data_sha : Option (List Nat)
  upgrade : Option Bool
  data : List Nat
  deriving DecidableEq, Repr

/-- Chunk-request construction of one inner-loop iteration (src/image.rs
lines 69-93): clamp the attempted length to the remaining bytes
(`try_length = data.len() - off`), slice the chunk, and include `len` and
the SHA-256 of the whole image exactly when `off == 0`.  When `off`
exceeds the image length, `data.len() - off` has no unsigned value and the
subsequent slice `data[off .. off + try_length]` is out of bounds — the
code panics; this is modelled as `none`. -/
def buildUploadReq (slot off try_length : Nat) (data : List Nat) : Option ImageUploadReq :=
  if data.length < off then none
  else
    let t := if data.length < off + try_length then data.length - off else try_length
    let chunk := (data.drop off).take t
    if off = 0 then
      some { image_num := slot, off := off % 2 ^ 32, len := some (data.length % 2 ^ 32),
             data_sha := some (sha256 data), upgrade := none, data := chunk }
    else
      some { image_num := slot, off := off % 2 ^ 32, len := none,
             data_sha := none, upgrade := none, data := chunk }

/-! ## Response processing (src/image.rs lines 139-169)

The response body is a CBOR value (`serde_cbor::Value`); the engine only
inspects a top-level map, looking for integer-valued `"rc"` and `"off"`
entries.  `serde_cbor` integers are `i128`; the `as usize` cast truncates
to the low 64 bits. -/

/-- CBOR scalar values as far as the upload response processing observes
them.  Nested container values are elided: the engine skips every map entry
whose value is not an integer, whatever its shape. -/
inductive CborVal where
  | int : Int → CborVal
  | text : String → CborVal
  | bytes : List Nat → CborVal
  | boolean : Bool → CborVal
  | null : CborVal
  deriving DecidableEq, Repr

/-- Top-level CBOR response body: a map of entries, or anything else. -/
inductive CborBody where
  | map : List (CborVal × CborVal) → CborBody
  | scalar : CborVal → CborBody
  deriving DecidableEq, Repr

/-- Rust `as usize` on an `i128` value: truncation to the low 64 bits. -/
def intAsUsize (i : Int) : Nat := (i % 2 ^ 64).toNat

/-- Iteration over the response map entries (src/image.rs lines 140-156):
a non-zero integer `"rc"` entry aborts with the device error code; an
integer `"off"` entry overwrites the current offset; everything else is
skipped. -/
def processEntries : List (CborVal × CborVal) → Nat → Except String Nat
  | [], off => Except.ok off
  | (k, v) :: rest, off =>
      match k, v with
      | CborVal.text s, CborVal.int n =>
          if s = "rc" then
            if n ≠ 0 then Except.error ("rc = " ++ toString n)
            else processEntries rest off
          else if s = "off" then processEntries rest (intAsUsize n)
          else processEntries rest off
      | CborVal.text s, _ => processEntries rest off
      | _, _ => processEntries rest off

/-- Offset/status update from a response body (src/image.rs lines 139-157):
only a top-level map is inspected; any other body leaves the offset
unchanged. -/
def updateFromResponse (body : CborBody) (off : Nat) : Except String Nat :=
  match body with
  | CborBody.map object => processEntries object off
  | _ => Except.ok off

/-- End of one chunk exchange (src/image.rs lines 139-164): process the
response body starting from the chunk's start offset, then fail with
`"wrong offset received"` when the offset did not move.  An `Except.error`
here aborts the whole upload (`bail!`), so no further chunk request is
sent. -/
def chunkEpilogue (off_start : Nat) (body : CborBody) : Except String Nat :=
  match updateFromResponse body off_start with
  | Except.error e => Except.error e
  | Except.ok off => if off_start = off then Except.error "wrong offset received" else Except.ok off

/-- Composition of one response with the next chunk construction
(src/image.rs lines 139-169 feeding back into lines 67-93): the offset
produced by the epilogue is the offset the next chunk request is built
at. -/
def nextChunkAfter (off_start : Nat) (body : CborBody) (slot try_length : Nat)
    (data : List Nat) : Except String (Option ImageUploadReq) :=
  match chunkEpilogue off_start body with
  | Except.error e => Except.error e
  | Except.ok off => Except.ok (buildUploadReq slot off try_length data)

theorem buildUploadReq_some (slot off t : Nat) (data : List Nat)
    (h : off ≤ data.length) :
    buildUploadReq slot off t data = some
      { image_num := slot, off := off % 2 ^ 32,
        len := if off = 0 then some (data.length % 2 ^ 32) else none,
        data_sha := if off = 0 then some (sha256 data) else none,
        upgrade := none,
        data := (data.drop off).take
          (if data.length < off + t then data.length - off else t) } := by
  rw [buildUploadReq, if_neg (by omega)]
  by_cases h0 : off = 0
  · subst h0
    simp
  · have hf : (off = 0) = False := eq_false h0
    simp only [hf, if_false]

/-! ## C5, C6 — offset resynchronization and stall detection -/

/-- C5. When the response to a chunk sent at offset `S` reports an offset
`V ≠ S`, the orchestrator adopts `V` as the authoritative send offset and
the next chunk request is built starting at `V` — its data is the image
slice beginning at `V`, not at `S` plus the sent chunk length. -/
theorem upload_offset_resync (S V slot t : Nat) (data : List Nat) (body : CborBody)
    (h1 : updateFromResponse body S = Except.ok V) (h2 : V ≠ S)
    (h3 : V ≤ data.length) (h4 : V < 2 ^ 32) :
    chunkEpilogue S body = Except.ok V ∧
    ∃ r : ImageUploadReq, nextChunkAfter S body slot t data = Except.ok (some r) ∧
      r.off = V ∧
      r.data = (data.drop V).take (if data.length < V + t then data.length - V else t) := by
  have hep : chunkEpilogue S body = Except.ok V := by
    simp only [chunkEpilogue, h1]
    rw [if_neg (fun h => h2 h.symm)]
  refine ⟨hep, ?_⟩
  have hnc : nextChunkAfter S body slot t data =
      Except.ok (buildUploadReq slot V t data) := by
    rw [nextChunkAfter, hep]
  have hV32 : V % 2 ^ 32 = V := Nat.mod_eq_of_lt h4
  refine ⟨{ image_num := slot, off := V % 2 ^ 32,
            len := if V = 0 then some (data.length % 2 ^ 32) else none,
            data_sha := if V = 0 then some (sha256 data) else none,
            upgrade := none,
            data := (data.drop V).take
              (if data.length < V + t then data.length - V else t) }, ?_, ?_, ?_⟩
  · rw [hnc, buildUploadReq_some slot V t data h3]
  · exact hV32
  · rfl

/-- A response body that carries no `"off"` entry at all (either it is not a
map, or no map key is the text `"off"`). -/
def omitsOff : CborBody → Prop
  | CborBody.map object => ∀ p ∈ object, p.1 ≠ CborVal.text "off"
  | _ => True

theorem processEntries_no_off : ∀ object : List (CborVal × CborVal), ∀ off : Nat,
    (∀ p ∈ object, p.1 ≠ CborVal.text "off") →
    processEntries object off = Except.ok off ∨
      ∃ e, processEntries object off = Except.error e := by
  intro object
  induction object with
  | nil => intro off _; exact Or.inl rfl
  | cons p rest ih =>
      intro off hno
      have hrest : ∀ q ∈ rest, q.1 ≠ CborVal.text "off" :=
        fun q hq => hno q (by simp [hq])
      have hp : p.1 ≠ CborVal.text "off" := hno p (by simp)
      obtain ⟨k, v⟩ := p
      match k, v with
      | CborVal.text s, CborVal.int n =>
          by_cases hrc : s = "rc"
          · subst hrc
            by_cases hn : n = 0
            · subst hn
              rw [processEntries]
              simp only [if_pos rfl, if_neg (show ¬((0 : Int) ≠ 0) from by decide)]
              exact ih off hrest
            · rw [processEntries]
              simp only [if_pos rfl, if_pos hn]
              exact Or.inr ⟨_, rfl⟩
          · have hoff : s ≠ "off" := by
              intro h
              exact hp (by simp [h])
            rw [processEntries]
            simp only [if_neg hrc, if_neg hoff]
            exact ih off hrest
      | CborVal.text s, CborVal.text v' => simp only [processEntries]; exact ih off hrest
      | CborVal.text s, CborVal.bytes v' => simp only [processEntries]; exact ih off hrest
      | CborVal.text s, CborVal.boolean v' => simp only [processEntries]; exact ih off hrest
      | CborVal.text s, CborVal.null => simp only [processEntries]; exact ih off hrest
      | CborVal.int k', v => simp only [processEntries]; exact ih off hrest
      | CborVal.bytes k', v => simp only [processEntries]; exact ih off hrest
      | CborVal.boolean k', v => simp only [processEntries]; exact ih off hrest
      | CborVal.null, v => simp only [processEntries]; exact ih off hrest

/-- C6. If the response to a chunk sent at offset `S` reports an offset equal
to `S`, or omits the offset field entirely, the upload fails with an error
(`bail!` aborts the whole upload, so no further chunk request is sent): the
epilogue never produces a next offset, and no next chunk request is
built. -/
theorem upload_stall_detection (S : Nat) (body : CborBody) :
    (updateFromResponse body S = Except.ok S →
      chunkEpilogue S body = Except.error "wrong offset received" ∧
      ∀ slot t : Nat, ∀ data : List Nat,
        nextChunkAfter S body slot t data = Except.error "wrong offset received") ∧
    (omitsOff body → ∃ e, chunkEpilogue S body = Except.error e) := by
  constructor
  · intro h1
    have hep : chunkEpilogue S body = Except.error "wrong offset received" := by
      simp only [chunkEpilogue, h1]
      simp
    exact ⟨hep, fun slot t data => by rw [nextChunkAfter, hep]⟩
  · intro hno
    match body with
    | CborBody.map object =>
        rcases processEntries_no_off object S hno with h | ⟨e, h⟩
        · refine ⟨"wrong offset received", ?_⟩
          simp only [chunkEpilogue, updateFromResponse, h]
          simp
        · refine ⟨e, ?_⟩
          simp only [chunkEpilogue, updateFromResponse, h]
    | CborBody.scalar v =>
        refine ⟨"wrong offset received", ?_⟩
        simp only [chunkEpilogue, updateFromResponse]
        simp

/-! ## C7 — only the offset-0 chunk carries length and digest -/

/-- C7. A chunk request built at offset 0 carries the total image length and
the SHA-256 digest of the entire image alongside its data bytes; a chunk
request built at any non-zero offset carries only the slot, offset and chunk
data, with `len` and `data_sha` absent (and `upgrade` always absent). -/
theorem first_chunk_carries_length_and_hash (slot off t : Nat) (data : List Nat)
    (hoff : off ≤ data.length) (hlen : data.length < 2 ^ 32) (hoff32 : off < 2 ^ 32) :
    ∃ r : ImageUploadReq, buildUploadReq slot off t data = some r ∧
      (off = 0 → r.len = some data.length ∧ r.data_sha = some (sha256 data)) ∧
      (off ≠ 0 → r.len = none ∧ r.data_sha = none) ∧
      r.image_num = slot ∧ r.off = off ∧ r.upgrade = none ∧
      r.data = (data.drop off).take
        (if data.length < off + t then data.length - off else t) := by
  have h32 : off % 2 ^ 32 = off := Nat.mod_eq_of_lt hoff32
  have hl32 : data.length % 2 ^ 32 = data.length := Nat.mod_eq_of_lt hlen
  refine ⟨_, buildUploadReq_some slot off t data hoff, ?_, ?_, rfl, h32, rfl, rfl⟩
  · intro h0
    subst h0
    refine ⟨by simp; omega, by simp⟩
  · intro h0
    have hf : (off = 0) = False := eq_false h0
    exact ⟨by simp [hf], by simp [hf]⟩

/-! ## C10 — device offsets beyond the image end are not rejected -/

/-- C10. If a response reports an offset strictly greater than the image
length, the success test (equality with the image length) does not hold, the
clamping branch `off + try_length > data.len()` is taken, the subtraction
`data.len() - off` has no valid unsigned result (the chunk construction
panics, modelled as `none`), and nothing in the response processing rejects
such an offset: an integer `"off"` entry with that value is adopted
verbatim. -/
theorem device_offset_beyond_end (S off t slot : Nat) (data : List Nat)
    (h : data.length < off) (hoff64 : off < 2 ^ 64) :
    off ≠ data.length ∧
    data.length < off + t ∧
    (¬ ∃ r : Nat, r + off = data.length) ∧
    buildUploadReq slot off t data = none ∧
    updateFromResponse (CborBody.map [(CborVal.text "off", CborVal.int (off : Int))]) S =
      Except.ok off := by
  refine ⟨by omega, by omega, by rintro ⟨r, hr⟩; omega, ?_, ?_⟩
  · rw [buildUploadReq, if_pos h]
  · rw [updateFromResponse, processEntries]
    have hne : ("off" : String) ≠ "rc" := by decide
    simp only [if_neg hne, if_pos rfl, processEntries]
    have hcast : intAsUsize (off : Int) = off := by
      unfold intAsUsize
      rw [Int.emod_eq_of_lt (by exact_mod_cast Nat.zero_le off) (by exact_mod_cast hoff64)]
      simp
    rw [hcast]
    simp

/-! ## C8 — sequence allocator (src/transfer.rs lines 42-47) -/

/-- Translation of `next_seq_id`: the process-wide `AtomicU8` counter.
`fetch_add(1)` returns the current 8-bit value and stores the incremented
value, wrapping mod 256.  The state is the counter value; the seed is the
random initial value. -/
def next_seq_id (c : Nat) : Nat × Nat := (c % 256, (c + 1) % 256)

/-- The values returned by `n` consecutive `next_seq_id` calls starting from
counter state `c`. -/
def seqCalls : Nat → Nat → List Nat
  | _, 0 => []
  | c, n + 1 => (next_seq_id c).1 :: seqCalls (next_seq_id c).2 n

theorem seqCalls_length (c n : Nat) : (seqCalls c n).length = n := by
  induction n generalizing c with
  | zero => rfl
  | succ k ih => simp [seqCalls, ih]

theorem seqCalls_getD (n : Nat) : ∀ c i : Nat, i < n →
    (seqCalls c n).getD i 0 = (c + i) % 256 := by
  induction n with
  | zero => intro c i hi; omega
  | succ k ih =>
      intro c i hi
      cases i with
      | zero => simp [seqCalls, next_seq_id]
      | succ j =>
          have : (seqCalls c (k + 1)).getD (j + 1) 0 =
              (seqCalls (next_seq_id c).2 k).getD j 0 := by
            simp [seqCalls, List.getD]
          rw [this, ih _ j (by omega)]
          simp only [next_seq_id]
          omega

/-- C8. From any fresh counter state (any 8-bit seed), 256 consecutive calls
to `next_seq_id` return pairwise distinct values forming a cyclic permutation
of all 256 byte values (the `i`-th value is `(seed + i) mod 256`), and the
257th call returns the same value as the 1st. -/
theorem next_seq_id_cycle (seed : Nat) (hseed : seed < 256) :
    (seqCalls seed 256).Nodup ∧
    (∀ v < 256, v ∈ seqCalls seed 256) ∧
    (∀ i < 256, (seqCalls seed 256).getD i 0 = (seed + i) % 256) ∧
    (seqCalls seed 257).getD 256 0 = (seqCalls seed 257).getD 0 0 := by
  have hlen : (seqCalls seed 256).length = 256 := seqCalls_length _ _
  refine ⟨?_, ?_, fun i hi => seqCalls_getD 256 seed i hi, ?_⟩
  · rw [List.nodup_iff_injective_get]
    intro ⟨i, hi⟩ ⟨j, hj⟩ hij
    rw [hlen] at hi hj
    have hget : ∀ (l : List Nat) (m : Nat) (hm : m < l.length),
        l.get ⟨m, hm⟩ = l.getD m 0 := by
      intro l m hm
      rw [List.getD_eq_getElem l 0 hm]
      rfl
    have hgi := hget (seqCalls seed 256) i (by omega)
    have hgj := hget (seqCalls seed 256) j (by omega)
    have := hij
    rw [hgi, hgj, seqCalls_getD 256 seed i hi, seqCalls_getD 256 seed j hj] at this
    have hij' : i = j := by omega
    exact Fin.ext hij'
  · intro v hv
    have hidx : (v + 256 - seed) % 256 < 256 := by omega
    have hval : (seqCalls seed 256).getD ((v + 256 - seed) % 256) 0 = v := by
      rw [seqCalls_getD 256 seed _ hidx]
      omega
    rw [← hval]
    rw [List.getD_eq_getElem _ _ (by omega)]
    exact List.getElem_mem _
  · rw [seqCalls_getD 257 seed 256 (by omega), seqCalls_getD 257 seed 0 (by omega)]
    omega

/-! ## CBOR encoding of the upload request

Modelled from the spec: the request body is serialized with the
"compact self-describing binary map/record format (key strings to typed
values)" of §6 — CBOR, via `serde_cbor::to_vec` on the `ImageUploadReq` of
the missing `nmp_hdr.rs`.  We model it as a definite-length CBOR map with
text keys `image`, `off`, `len`, `sha`, `data` in field order, the absent
optional fields (`len`, `sha`, `upgrade` off the first chunk) omitted,
`data`/`sha` as byte strings and the numbers as unsigned integers. -/

/-- CBOR head byte(s) for a major type and length/value argument. -/
def cborHead (major n : Nat) : List Nat :=
  if n < 24 then [major * 32 + n]
  else if n < 256 then [major * 32 + 24, n]
  else if n < 65536 then [major * 32 + 25] ++ u16be n
  else [major * 32 + 26, n / 2 ^ 24 % 256, n / 2 ^ 16 % 256, n / 2 ^ 8 % 256, n % 256]

/-- CBOR unsigned integer. -/
def cborUint (n : Nat) : List Nat := cborHead 0 n

/-- CBOR text string from ASCII bytes. -/
def cborTextBytes (s : List Nat) : List Nat := cborHead 3 s.length ++ s

/-- CBOR byte string. -/
def cborByteStr (bs : List Nat) : List Nat := cborHead 2 bs.length ++ bs

/-- Modelled from the spec: CBOR serialization of the image-upload request
(field order `image_num`, `off`, `len`, `data_sha`, `upgrade`, `data`;
`none` fields omitted). -/
def cborUploadReq (r : ImageUploadReq) : List Nat :=
  let entries :=
    cborTextBytes [105, 109, 97, 103, 101] ++ cborUint r.image_num ++
    cborTextBytes [111, 102, 102] ++ cborUint r.off ++
    (match r.len with
     | some n => cborTextBytes [108, 101, 110] ++ cborUint n
     | none => []) ++
    (match r.data_sha with
     | some sha => cborTextBytes [115, 104, 97] ++ cborByteStr sha
     | none => []) ++
    cborTextBytes [100, 97, 116, 97] ++ cborByteStr r.data
  let count := 3 + (match r.len with | some _ => 1 | none => 0) +
    (match r.data_sha with | some _ => 1 | none => 0)
  cborHead 5 count ++ entries

/-- Modelled from the spec: single-byte wire values of the header
enumerations of the missing `nmp_hdr.rs` (request-write operation, Image
group, Upload command id), as the device management protocol encodes
them. -/
def NmpOpWrite : Nat := 2

/-- Modelled from the spec: Image group wire value. -/
def NmpGroupImage : Nat := 1

/-- Modelled from the spec: Upload command id wire value. -/
def NmpIdImageUpload : Nat := 1

/-! ## MTU shrink loop (src/image.rs lines 67-119) -/

/-- Outcome of the inner shrink loop for one chunk. -/
inductive ShrinkResult where
  | sent : List Nat → Nat → ShrinkResult
  | mtuTooSmall : ShrinkResult
  | panicked : ShrinkResult
  | noFuel : ShrinkResult
  deriving DecidableEq, Repr

/-- Fueled model of the inner shrink loop of `upload` (src/image.rs lines
67-119) up to the transceive: clamp the attempted length to the remaining
bytes, build the request, CBOR-encode it, frame it with `encode_request`,
and if the frame exceeds `cli.mtu` either fail (`"MTU too small"`, when the
overflow exceeds the clamped attempted length) or shrink the attempted
length by `overflow * 3 / 4 + 3` — computed with the wrapping `usize`
subtraction a Rust release build performs — and retry with the same offset
and sequence id.  Each iteration records `(seq, off, try_length-at-entry)`;
`panicked` models the out-of-bounds slice when `off` exceeds the image
length. -/
def shrinkLoop (cli : Cli) (data : List Nat) (slot off seq : Nat) :
    Nat → Nat → List (Nat × Nat × Nat) × ShrinkResult
  | 0, _ => ([], ShrinkResult.noFuel)
  | fuel + 1, try_length =>
      let step : List (Nat × Nat × Nat) × ShrinkResult :=
        match buildUploadReq slot off try_length data with
        | none => ([], ShrinkResult.panicked)
        | some req =>
            let try1 := if data.length < off + try_length then data.length - off
              else try_length
            let body := cborUploadReq req
            let chunk := (encode_request cli NmpOpWrite NmpGroupImage NmpIdImageUpload
              body seq).1
            if cli.mtu < chunk.length then
              let reduce := chunk.length - cli.mtu
              if try1 < reduce then ([], ShrinkResult.mtuTooSmall)
              else shrinkLoop cli data slot off seq fuel
                (rustSub64 try1 (reduce * 3 / 4 + 3))
            else ([], ShrinkResult.sent chunk try1)
      ((seq, off, try_length) :: step.1, step.2)

/-! ## C4 — the shrink step can fail to decrease, and the loop can run forever -/

/-- Failing configuration for the MTU shrink negotiation: `mtu = 107`,
`linelength = 200`, slot 0. -/
def c4Cli : Cli := ⟨107, 200, 0⟩

/-- Failing image for the MTU shrink negotiation: 5 bytes. -/
def c4Data : List Nat := [1, 2, 3, 4, 5]

set_option maxRecDepth 100000

theorem shrink_noFuel_wrap : ∀ fuel : Nat,
    (shrinkLoop c4Cli c4Data 0 0 7 fuel (2 ^ 64 - 1)).2 = ShrinkResult.noFuel
  | 0 => rfl
  | fuel + 1 => shrink_noFuel_wrap fuel

/-- C4 (failing input).  With `mtu = 107`, `linelength = 200`, slot 0 and
the 5-byte image `[1,2,3,4,5]`, the first chunk's frame encodes to 111
bytes: the overflow is `111 - 107 = 4`, the clamped attempted length is 5,
and the overflow does not exceed it, so the loop does not fail with "MTU too
small"; but the shrink `5 - (4*3/4 + 3) = 5 - 6` underflows `usize` — in a
release build it wraps to `2^64 - 1`, so the attempted chunk length does
not decrease (a debug build panics at the subtraction instead) — and after
re-clamping, the loop revisits the same state: for every fuel bound the
inner loop neither produces a fitting frame nor fails, i.e. it runs
forever. -/
theorem mtu_shrink_nonterminating :
    (encode_request c4Cli NmpOpWrite NmpGroupImage NmpIdImageUpload
      (cborUploadReq ((buildUploadReq c4Cli.slot 0 c4Cli.mtu c4Data).getD
        (ImageUploadReq.mk 0 0 none none none []))) 7).1.length = 111 ∧
    111 - c4Cli.mtu = 4 ∧
    (if c4Data.length < 0 + c4Cli.mtu then c4Data.length - 0 else c4Cli.mtu) = 5 ∧
    ¬ 5 < 4 ∧
    rustSub64 5 (4 * 3 / 4 + 3) = 2 ^ 64 - 1 ∧
    ¬ rustSub64 5 (4 * 3 / 4 + 3) < 5 ∧
    ∀ fuel : Nat,
      (shrinkLoop c4Cli c4Data c4Cli.slot 0 7 fuel c4Cli.mtu).2 = ShrinkResult.noFuel := by
  refine ⟨by decide, by decide, by decide, by decide, by decide, by decide, ?_⟩
  intro fuel
  cases fuel with
  | zero => rfl
  | succ k => exact shrink_noFuel_wrap k

/-! ## Outer upload loop (src/image.rs lines 61-170) -/

/-- Outcome of the fueled upload loop model. -/
inductive UploadOutcome where
  | done : UploadOutcome
  | failed : String → UploadOutcome
  | noResponse : UploadOutcome
  | inner : ShrinkResult → UploadOutcome
  | noFuel : UploadOutcome
  deriving DecidableEq, Repr

/-- Fueled model of the outer chunk loop of `upload` (src/image.rs lines
61-170), driven by a list of device response bodies (one per successful
transceive; an exhausted list models a transport read failure).  Each outer
iteration allocates a fresh sequence id (line 66) and resets the attempted
chunk length to `cli.mtu` (line 64), runs the inner shrink loop, processes
the response (`chunkEpilogue`, lines 139-164) and either finishes (offset
equals the image length, line 167), fails, or continues at the
device-reported offset.  The returned trace records, per chunk, the
sequence id and the inner loop's `(seq, off, try_length)` attempts. -/
def uploadLoop (cli : Cli) (data : List Nat) (innerFuel : Nat) :
    Nat → Nat → Nat → List CborBody →
    List (Nat × List (Nat × Nat × Nat)) × UploadOutcome
  | 0, _, _, _ => ([], UploadOutcome.noFuel)
  | fuel + 1, counter, off, responses =>
      let seq := (next_seq_id counter).1
      let inner := shrinkLoop cli data cli.slot off seq innerFuel cli.mtu
      match inner.2 with
      | ShrinkResult.noFuel => ([(seq, inner.1)], UploadOutcome.inner ShrinkResult.noFuel)
      | ShrinkResult.panicked =>
          ([(seq, inner.1)], UploadOutcome.inner ShrinkResult.panicked)
      | ShrinkResult.mtuTooSmall => ([(seq, inner.1)], UploadOutcome.failed "MTU too small")
      | ShrinkResult.sent _ _ =>
          match responses with
          | [] => ([(seq, inner.1)], UploadOutcome.noResponse)
          | body :: rest =>
              match chunkEpilogue off body with
              | Except.error e => ([(seq, inner.1)], UploadOutcome.failed e)
              | Except.ok v =>
                  if v = data.length then ([(seq, inner.1)], UploadOutcome.done)
                  else
                    let next := uploadLoop cli data innerFuel fuel (next_seq_id counter).2
                      v rest
                    ((seq, inner.1) :: next.1, next.2)

theorem shrinkLoop_attempts (cli : Cli) (data : List Nat) (slot off seq : Nat) :
    ∀ fuel try_length : Nat,
      ∀ a ∈ (shrinkLoop cli data slot off seq fuel try_length).1,
        a.1 = seq ∧ a.2.1 = off := by
  intro fuel
  induction fuel with
  | zero => intro t a ha; simp [shrinkLoop] at ha
  | succ k ih =>
      intro t a ha
      simp only [shrinkLoop] at ha
      rcases List.mem_cons.mp ha with h | h
      · simp [h]
      · revert h
        cases hb : buildUploadReq slot off t data with
        | none => intro h; simp at h
        | some req =>
            intro h
            simp only at h
            split_ifs at h <;> first | simp at h | exact ih _ a h

theorem shrinkLoop_head (cli : Cli) (data : List Nat) (slot off seq : Nat)
    (fuel try_length : Nat) :
    ∃ rest, (shrinkLoop cli data slot off seq (fuel + 1) try_length).1 =
      (seq, off, try_length) :: rest := by
  rw [shrinkLoop]
  exact ⟨_, rfl⟩

theorem uploadLoop_succ_shape (cli : Cli) (data : List Nat) (innerFuel fuel counter off : Nat)
    (responses : List CborBody) :
    (uploadLoop cli data innerFuel (fuel + 1) counter off responses).1 =
      [((next_seq_id counter).1,
        (shrinkLoop cli data cli.slot off (next_seq_id counter).1 innerFuel cli.mtu).1)] ∨
    ∃ v rest, (uploadLoop cli data innerFuel (fuel + 1) counter off responses).1 =
      ((next_seq_id counter).1,
        (shrinkLoop cli data cli.slot off (next_seq_id counter).1 innerFuel cli.mtu).1) ::
      (uploadLoop cli data innerFuel fuel (next_seq_id counter).2 v rest).1 := by
  simp only [uploadLoop]
  cases h2 : (shrinkLoop cli data cli.slot off (next_seq_id counter).1 innerFuel cli.mtu).2 with
  | noFuel => simp only [h2]; left; trivial
  | panicked => simp only [h2]; left; trivial
  | mtuTooSmall => simp only [h2]; left; trivial
  | sent chunk t =>
      simp only [h2]
      cases responses with
      | nil => left; rfl
      | cons body rest =>
          cases h3 : chunkEpilogue off body with
          | error e => simp only [h3]; left; trivial
          | ok v =>
              simp only [h3]
              by_cases hv : v = data.length
              · rw [if_pos hv]; left; trivial
              · rw [if_neg hv]; right; exact ⟨v, rest, rfl⟩

/-- C9. In the upload loop, all shrink retries of one chunk reuse one and
the same sequence id and the same offset; a fresh sequence id is allocated
only at each chunk boundary — the `i`-th chunk uses sequence id
`(counter + i) mod 256` — and at each chunk boundary the attempted chunk
length is reset to the configured maximum `cli.mtu` (the first attempt of
every chunk records it). -/
theorem seq_id_per_chunk (cli : Cli) (data : List Nat) (innerFuel : Nat)
    (hinner : 0 < innerFuel) :
    ∀ fuel counter off : Nat, ∀ responses : List CborBody,
      (∀ i : Nat,
        i < (uploadLoop cli data innerFuel fuel counter off responses).1.length →
        ((uploadLoop cli data innerFuel fuel counter off responses).1.getD i (0, [])).1 =
          (counter + i) % 256) ∧
      (∀ ct ∈ (uploadLoop cli data innerFuel fuel counter off responses).1,
        (∀ a ∈ ct.2, a.1 = ct.1) ∧
        ∃ o restA, ct.2 = (ct.1, o, cli.mtu) :: restA ∧ ∀ a ∈ ct.2, a.2.1 = o) := by
  obtain ⟨m, rfl⟩ : ∃ m, innerFuel = m + 1 := ⟨innerFuel - 1, by omega⟩
  intro fuel
  induction fuel with
  | zero =>
      intro counter off responses
      constructor
      · intro i hi
        simp [uploadLoop] at hi
      · intro ct hct
        simp [uploadLoop] at hct
  | succ k ih =>
      intro counter off responses
      have hchunk : ∀ ct : Nat × List (Nat × Nat × Nat),
          ct = ((next_seq_id counter).1,
            (shrinkLoop cli data cli.slot off (next_seq_id counter).1 (m + 1) cli.mtu).1) →
          (∀ a ∈ ct.2, a.1 = ct.1) ∧
          ∃ o restA, ct.2 = (ct.1, o, cli.mtu) :: restA ∧ ∀ a ∈ ct.2, a.2.1 = o := by
        intro ct hct
        subst hct
        constructor
        · intro a ha
          exact (shrinkLoop_attempts cli data cli.slot off _ _ _ a ha).1
        · obtain ⟨restA, hr⟩ := shrinkLoop_head cli data cli.slot off
            (next_seq_id counter).1 m cli.mtu
          refine ⟨off, restA, hr, ?_⟩
          intro a ha
          exact (shrinkLoop_attempts cli data cli.slot off _ _ _ a ha).2
      rcases uploadLoop_succ_shape cli data (m + 1) k counter off responses with
        hs | ⟨v, rest, hs⟩
      · constructor
        · intro i hi
          rw [hs] at hi ⊢
          simp only [List.length_cons, List.length_nil] at hi
          match i, hi with
          | 0, _ => simp [next_seq_id]
        · intro ct hct
          rw [hs] at hct
          exact hchunk ct (List.mem_singleton.mp hct)
      · constructor
        · intro i hi
          rw [hs] at hi ⊢
          match i, hi with
          | 0, _ => simp [next_seq_id]
          | j + 1, hi =>
              have hj : j < (uploadLoop cli data (m + 1) k (next_seq_id counter).2
                  v rest).1.length := by
                simp only [List.length_cons] at hi
                omega
              have hih := (ih (next_seq_id counter).2 v rest).1 j hj
              rw [List.getD_cons_succ, hih]
              simp only [next_seq_id]
              omega
        · intro ct hct
          rw [hs] at hct
          rcases List.mem_cons.mp hct with h | h
          · exact hchunk ct h
          · exact (ih (next_seq_id counter).2 v rest).2 ct h

/-! ## Witnesses -/

theorem frame_roundtrip_witness :
    transportDecode (encode_request ⟨512, 128, 0⟩ 2 1 1 [1, 2, 3] 42).1 =
      Except.ok ((encode_request ⟨512, 128, 0⟩ 2 1 1 [1, 2, 3] 42).2, [1, 2, 3]) ∧
    (encode_request ⟨512, 128, 0⟩ 2 1 1 [1, 2, 3] 42).2 =
      { op := 2, flags := 0, len := 3, group := 1, seq := 42, id := 1 } :=
  frame_roundtrip ⟨512, 128, 0⟩ 2 1 1 42 [1, 2, 3] (by norm_num) (by norm_num)
    (by decide) (by decide) (by decide) (by decide) (by decide) (by decide)

theorem encode_request_structure_witness :
    ∃ lines : List (List Nat),
      (encode_request ⟨512, 20, 0⟩ 2 1 1 [9, 8, 7] 5).1 = linesToWire true lines ∧
      lines.flatten = b64encode
        (u16be (8 + ([9, 8, 7] : List Nat).length + 2) ++
          ((2 :: 0 :: (u16be ([9, 8, 7] : List Nat).length ++ u16be 1 ++ [5, 1])) ++
            [9, 8, 7] ++
            u16be (crc16 ((2 :: 0 :: (u16be ([9, 8, 7] : List Nat).length ++ u16be 1 ++
              [5, 1])) ++ [9, 8, 7])))) ∧
      ∀ l ∈ lines, l.length ≤ (⟨512, 20, 0⟩ : Cli).linelength - 4 ∧ l ≠ [] :=
  encode_request_structure ⟨512, 20, 0⟩ 2 1 1 5 [9, 8, 7] (by norm_num) (by norm_num)
    (by decide) (by decide) (by decide) (by decide) (by decide)

theorem frameDecode_length_check_witness :
    ((frameDecode [0, 3, 9, 9, 9] = Except.error "wrong chunk length") ↔
      readU16 [0, 3, 9, 9, 9] ≠ ([0, 3, 9, 9, 9] : List Nat).length - 2) ∧
    (readU16 [0, 3, 9, 9, 9] = ([0, 3, 9, 9, 9] : List Nat).length - 2 →
      4 ≤ ([0, 3, 9, 9, 9] : List Nat).length →
      ((frameDecode [0, 3, 9, 9, 9] = Except.error "wrong checksum") ↔
        readU16 (([0, 3, 9, 9, 9] : List Nat).drop (([0, 3, 9, 9, 9] : List Nat).length - 2)) ≠
          crc16 ((([0, 3, 9, 9, 9] : List Nat).drop 2).take
            (([0, 3, 9, 9, 9] : List Nat).length - 4)))) :=
  frameDecode_length_check [0, 3, 9, 9, 9] (by decide)

theorem upload_offset_resync_witness :
    chunkEpilogue 0 (CborBody.map
      [(CborVal.text "rc", CborVal.int 0), (CborVal.text "off", CborVal.int 3)]) =
      Except.ok 3 ∧
    ∃ r : ImageUploadReq,
      nextChunkAfter 0 (CborBody.map
        [(CborVal.text "rc", CborVal.int 0), (CborVal.text "off", CborVal.int 3)])
        1 2 [1, 2, 3, 4, 5] = Except.ok (some r) ∧
      r.off = 3 ∧
      r.data = (([1, 2, 3, 4, 5] : List Nat).drop 3).take
        (if ([1, 2, 3, 4, 5] : List Nat).length < 3 + 2
         then ([1, 2, 3, 4, 5] : List Nat).length - 3 else 2) :=
  upload_offset_resync 0 3 1 2 [1, 2, 3, 4, 5]
    (CborBody.map [(CborVal.text "rc", CborVal.int 0), (CborVal.text "off", CborVal.int 3)])
    rfl (by decide) (by decide) (by decide)

theorem upload_stall_detection_witness :
    (chunkEpilogue 5 (CborBody.map [(CborVal.text "off", CborVal.int 5)]) =
      Except.error "wrong offset received" ∧
     nextChunkAfter 5 (CborBody.map [(CborVal.text "off", CborVal.int 5)]) 0 4 [1, 2] =
      Except.error "wrong offset received") ∧
    ∃ e, chunkEpilogue 9 (CborBody.map [(CborVal.text "rc", CborVal.int 0)]) =
      Except.error e :=
  ⟨⟨((upload_stall_detection 5
        (CborBody.map [(CborVal.text "off", CborVal.int 5)])).1 rfl).1,
    ((upload_stall_detection 5
        (CborBody.map [(CborVal.text "off", CborVal.int 5)])).1 rfl).2 0 4 [1, 2]⟩,
   (upload_stall_detection 9
      (CborBody.map [(CborVal.text "rc", CborVal.int 0)])).2
      (by unfold omitsOff; decide)⟩

theorem first_chunk_carries_length_and_hash_witness :
    (∃ r : ImageUploadReq, buildUploadReq 1 0 3 [1, 2, 3] = some r ∧
      (0 = 0 → r.len = some ([1, 2, 3] : List Nat).length ∧
        r.data_sha = some (sha256 [1, 2, 3])) ∧
      (0 ≠ 0 → r.len = none ∧ r.data_sha = none) ∧
      r.image_num = 1 ∧ r.off = 0 ∧ r.upgrade = none ∧
      r.data = (([1, 2, 3] : List Nat).drop 0).take
        (if ([1, 2, 3] : List Nat).length < 0 + 3
         then ([1, 2, 3] : List Nat).length - 0 else 3)) ∧
    (∃ r : ImageUploadReq, buildUploadReq 1 2 3 [1, 2, 3] = some r ∧
      (2 = 0 → r.len = some ([1, 2, 3] : List Nat).length ∧
        r.data_sha = some (sha256 [1, 2, 3])) ∧
      (2 ≠ 0 → r.len = none ∧ r.data_sha = none) ∧
      r.image_num = 1 ∧ r.off = 2 ∧ r.upgrade = none ∧
      r.data = (([1, 2, 3] : List Nat).drop 2).take
        (if ([1, 2, 3] : List Nat).length < 2 + 3
         then ([1, 2, 3] : List Nat).length - 2 else 3)) :=
  ⟨first_chunk_carries_length_and_hash 1 0 3 [1, 2, 3] (by decide) (by decide) (by decide),
   first_chunk_carries_length_and_hash 1 2 3 [1, 2, 3] (by decide) (by decide) (by decide)⟩

theorem next_seq_id_cycle_witness :
    (seqCalls 7 256).Nodup ∧
    (∀ v < 256, v ∈ seqCalls 7 256) ∧
    (∀ i < 256, (seqCalls 7 256).getD i 0 = (7 + i) % 256) ∧
    (seqCalls 7 257).getD 256 0 = (seqCalls 7 257).getD 0 0 :=
  next_seq_id_cycle 7 (by decide)

theorem seq_id_per_chunk_witness :
    (∀ i : Nat,
      i < (uploadLoop ⟨90, 30, 1⟩ [1, 2] 4 3 9 0
        [CborBody.map [(CborVal.text "off", CborVal.int 1)],
         CborBody.map [(CborVal.text "off", CborVal.int 2)]]).1.length →
      ((uploadLoop ⟨90, 30, 1⟩ [1, 2] 4 3 9 0
        [CborBody.map [(CborVal.text "off", CborVal.int 1)],
         CborBody.map [(CborVal.text "off", CborVal.int 2)]]).1.getD i (0, [])).1 =
        (9 + i) % 256) ∧
    (∀ ct ∈ (uploadLoop ⟨90, 30, 1⟩ [1, 2] 4 3 9 0
        [CborBody.map [(CborVal.text "off", CborVal.int 1)],
         CborBody.map [(CborVal.text "off", CborVal.int 2)]]).1,
      (∀ a ∈ ct.2, a.1 = ct.1) ∧
      ∃ o restA, ct.2 = (ct.1, o, (⟨90, 30, 1⟩ : Cli).mtu) :: restA ∧
        ∀ a ∈ ct.2, a.2.1 = o) :=
  seq_id_per_chunk ⟨90, 30, 1⟩ [1, 2] 4 (by decide) 3 9 0
    [CborBody.map [(CborVal.text "off", CborVal.int 1)],
     CborBody.map [(CborVal.text "off", CborVal.int 2)]]

theorem device_offset_beyond_end_witness :
    7 ≠ ([1, 2, 3] : List Nat).length ∧
    ([1, 2, 3] : List Nat).length < 7 + 1 ∧
    (¬ ∃ r : Nat, r + 7 = ([1, 2, 3] : List Nat).length) ∧
    buildUploadReq 0 7 1 [1, 2, 3] = none ∧
    updateFromResponse (CborBody.map [(CborVal.text "off", CborVal.int (7 : Int))]) 0 =
      Except.ok 7 :=
  device_offset_beyond_end 0 7 1 0 [1, 2, 3] (by decide) (by decide)
end McumgrClient
